import Mathlib

/-!
Verification of the SEC filing checker core (`sec_form_checker2.py`).

Shallow embedding of the program's pure per-company pipeline: identifier
normalization (`zero_pad_cik`), metadata fetch handling, per-filing date and
form filtering, 8-K sub-item routing, link aggregation into dynamically named
record fields, and the per-company batch loop.  Python exceptions are made
explicit with `Except`: an uncaught exception in the original loop aborts the
whole batch, which the model renders as an `Except.error` result of the batch
runner.  All definitions are executable so that theorems can be instantiated
on concrete inputs.
-/

namespace SecFormChecker

/-- Characters of the decimal representation of `n`, least-significant digit
first.  `fuel` bounds the recursion depth; `n + 1` always suffices, since a
number `n` has at most `n + 1` decimal digits. -/
def toDigitsRev : Nat → Nat → List Char
  | 0, _ => []
  | f + 1, n => if n < 10 then [Nat.digitChar n] else Nat.digitChar (n % 10) :: toDigitsRev f (n / 10)

/-- Decimal rendering of a natural number, as Python `str` of a nonnegative int. -/
def natRepr (n : Nat) : String := String.mk (toDigitsRev (n + 1) n).reverse

/-- Decimal rendering of an integer, as Python `str` of an int. -/
def intRepr (v : Int) : String := if v < 0 then "-" ++ natRepr v.natAbs else natRepr v.toNat

/-- Python `str.strip()`: drop leading and trailing whitespace characters. -/
def pyStrip (s : String) : String :=
  String.mk (((s.data.dropWhile Char.isWhitespace).reverse.dropWhile Char.isWhitespace).reverse)

/-- Split a character list at every occurrence of `sep`, keeping empty pieces
(Python `str.split(sep)` semantics for a one-character separator). -/
def splitCharAux (sep : Char) : List Char → List Char → List (List Char)
  | [], cur => [cur.reverse]
  | c :: rest, cur =>
    if c = sep then cur.reverse :: splitCharAux sep rest []
    else splitCharAux sep rest (c :: cur)

/-- Python `s.split(sep)` for a one-character separator: `""` splits to `[""]`. -/
def pySplit (s : String) (sep : Char) : List String := (splitCharAux sep s.data []).map String.mk

/-- Digit scanner for Python `int(...)`: after a first digit, more digits may
follow, with single underscores allowed between digits. -/
def digitsLoop : List Char → Nat → Option Nat
  | [], acc => some acc
  | '_' :: c :: rest, acc =>
    if c.isDigit then digitsLoop rest (acc * 10 + (c.toNat - 48)) else none
  | c :: rest, acc =>
    if c.isDigit then digitsLoop rest (acc * 10 + (c.toNat - 48)) else none

/-- Value of a digit group; the first character must be a digit. -/
def digitsVal : List Char → Option Nat
  | [] => none
  | c :: rest => if c.isDigit then digitsLoop rest (c.toNat - 48) else none

/-- Python `int(str)`: optional surrounding whitespace, an optional sign, then
decimal digits.  Returns `none` where Python raises `ValueError`. -/
def pyParseInt (s : String) : Option Int :=
  match (pyStrip s).data with
  | '-' :: rest => (digitsVal rest).map (fun n => -(n : Int))
  | '+' :: rest => (digitsVal rest).map (fun n => (n : Int))
  | cs => (digitsVal cs).map (fun n => (n : Int))

/-- Python `str.rjust(w, c)`: left-pad with `c` to width `w`, never truncating. -/
def pyRjust (s : String) (w : Nat) (c : Char) : String :=
  if w ≤ s.length then s else String.mk (List.replicate (w - s.length) c) ++ s

/-- Zero padding of a string to width `w` (no truncation). -/
def padZeros (w : Nat) (t : String) : String :=
  String.mk (List.replicate (w - t.length) '0' ++ t.data)

/-- Python `f"{v:010d}"`: zero padding to overall width 10, sign first. -/
def intFormat010 (v : Int) : String :=
  if v < 0 then "-" ++ padZeros 9 (natRepr v.natAbs) else padZeros 10 (natRepr v.toNat)

/-- `zero_pad_cik` from the source: try `int(cik)` and format with `f"{val:010d}"`;
on `ValueError` fall back to `str(cik).rjust(10, "0")`. -/
def zero_pad_cik (cik : String) : String :=
  match pyParseInt cik with
  | some v => intFormat010 v
  | none => pyRjust cik 10 '0'

theorem length_mk (l : List Char) : (String.mk l).length = l.length := rfl

theorem padZeros_length (w : Nat) (t : String) :
    (padZeros w t).length = (w - t.length) + t.length := by
  show (List.replicate (w - t.length) '0' ++ t.data).length = (w - t.length) + t.length
  rw [List.length_append, List.length_replicate]
  rfl

theorem pyRjust_zero (s : String) (w : Nat) : pyRjust s w '0' = padZeros w s := by
  unfold pyRjust padZeros
  by_cases h : w ≤ s.length
  · rw [if_pos h]
    have h0 : w - s.length = 0 := by omega
    rw [h0]
    cases s with
    | mk l => simp
  · rw [if_neg h]
    cases s with
    | mk l => rfl

theorem toDigitsRev_length_le : ∀ (f k n : Nat), n < 10 ^ k → 1 ≤ k →
    (toDigitsRev f n).length ≤ k := by
  intro f
  induction f with
  | zero => intro k n _ _; simp [toDigitsRev]
  | succ f ih =>
    intro k n hn hk
    by_cases h10 : n < 10
    · simp [toDigitsRev, h10]
      omega
    · have hk2 : 2 ≤ k := by
        by_contra hc
        have hk1 : k = 1 := by omega
        rw [hk1] at hn
        simp at hn
        omega
      have hpow : (10 : Nat) ^ k = 10 ^ (k - 1) * 10 := by
        rw [← pow_succ]
        congr 1
        omega
      have hdiv : n / 10 < 10 ^ (k - 1) := by
        apply Nat.div_lt_of_lt_mul
        omega
      have hrec := ih (k - 1) (n / 10) hdiv (by omega)
      simp [toDigitsRev, h10]
      omega

theorem natRepr_length_le (n k : Nat) (hk : 1 ≤ k) (h : n < 10 ^ k) :
    (natRepr n).length ≤ k := by
  unfold natRepr
  rw [length_mk, List.length_reverse]
  exact toDigitsRev_length_le _ _ _ h hk

/-- C3 (amended): for a non-empty raw identifier, if it parses as a
non-negative integer then the normalizer returns the decimal value zero-padded
to width 10, which has exactly 10 characters whenever the value is below
10^10; if it does not parse as an integer at all, the raw string is left-padded
with `"0"` to width 10 without truncation, which has exactly 10 characters
whenever the raw string has at most 10 characters.  (The original "exactly 10
characters, always" fails for longer inputs, and identifiers parsing as
negative integers are formatted sign-first rather than by left-padding.) -/
theorem C3_normalizer_amended (s : String) (hne : s ≠ "") :
    (∀ v : Int, pyParseInt s = some v → 0 ≤ v →
        zero_pad_cik s = padZeros 10 (natRepr v.toNat)
        ∧ (v < 10000000000 → (zero_pad_cik s).length = 10))
  ∧ (pyParseInt s = none →
        zero_pad_cik s = padZeros 10 s
        ∧ (s.length ≤ 10 → (zero_pad_cik s).length = 10)) := by
  constructor
  · intro v hv h0
    have hz1 : zero_pad_cik s = intFormat010 v := by
      unfold zero_pad_cik
      rw [hv]
    have hz : zero_pad_cik s = padZeros 10 (natRepr v.toNat) := by
      rw [hz1]
      unfold intFormat010
      rw [if_neg (by omega)]
    refine ⟨hz, fun hlt => ?_⟩
    rw [hz, padZeros_length]
    have hn : v.toNat < 10 ^ 10 := by
      have h1010 : (10 : Nat) ^ 10 = 10000000000 := by norm_num
      omega
    have hle := natRepr_length_le v.toNat 10 (by norm_num) hn
    omega
  · intro hv
    have hz1 : zero_pad_cik s = pyRjust s 10 '0' := by
      unfold zero_pad_cik
      rw [hv]
    have hz : zero_pad_cik s = padZeros 10 s := by
      rw [hz1]
      exact pyRjust_zero s 10
    refine ⟨hz, fun hlen => ?_⟩
    rw [hz, padZeros_length]
    omega

/-- C3 counterexample: the claim "the normalizer returns a string of exactly 10
characters" fails on the 11-character unparsable identifier `"ABCDEFGHIJK"`
(returned unchanged, 11 characters), and the claimed fallback ("otherwise the
raw string is left-padded") fails on `"-5"`, which parses as the negative
integer `-5` and is formatted sign-first as `"-000000005"`, not left-padded to
`"00000000-5"`. -/
theorem C3_cex :
    ("ABCDEFGHIJK" ≠ "" ∧ (zero_pad_cik "ABCDEFGHIJK").length = 11)
  ∧ ("-5" ≠ "" ∧ pyParseInt "-5" = some (-5)
      ∧ ¬ ((0 : Int) ≤ -5)
      ∧ zero_pad_cik "-5" = "-000000005"
      ∧ padZeros 10 "-5" = "00000000-5"
      ∧ ("-000000005" : String) ≠ "00000000-5") := by
  decide

/-- Witness for C3 (amended) at the spec's own example identifier `1156375`. -/
theorem C3_normalizer_amended_w :
    ("1156375" ≠ "" ∧ pyParseInt "1156375" = some 1156375 ∧ (0 : Int) ≤ 1156375)
  ∧ (zero_pad_cik "1156375" = padZeros 10 (natRepr (1156375 : Int).toNat)
      ∧ ((1156375 : Int) < 10000000000 → (zero_pad_cik "1156375").length = 10)) :=
  ⟨⟨by decide, by decide, by decide⟩,
   (C3_normalizer_amended "1156375" (by decide)).1 1156375 (by decide) (by decide)⟩

/-- A calendar date as parsed by `datetime.strptime(s, "%Y-%m-%d")`. -/
structure DateT where
  y : Nat
  m : Nat
  d : Nat
deriving DecidableEq

/-- Strict `datetime` comparison: lexicographic on (year, month, day). -/
def dateLt (a b : DateT) : Bool :=
  decide (a.y < b.y ∨ (a.y = b.y ∧ (a.m < b.m ∨ (a.m = b.m ∧ a.d < b.d))))

/-- Inclusive date order, written from the spec's words ("both bounds inclusive"). -/
def specDateLe (a b : DateT) : Bool :=
  decide (a.y < b.y ∨ (a.y = b.y ∧ (a.m < b.m ∨ (a.m = b.m ∧ a.d ≤ b.d))))

/-- Gregorian leap year, as validated by `datetime`. -/
def isLeap (y : Nat) : Bool := decide (y % 4 = 0) && (decide (y % 100 ≠ 0) || decide (y % 400 = 0))

/-- Number of days of month `m` in year `y`, as validated by `datetime`. -/
def daysInMonth (y m : Nat) : Nat :=
  if m = 2 then (if isLeap y then 29 else 28)
  else if m = 4 ∨ m = 6 ∨ m = 9 ∨ m = 11 then 30 else 31

/-- All characters are decimal digits and the string is non-empty. -/
def allDigits (s : String) : Bool := decide (s.data ≠ []) && s.data.all Char.isDigit

/-- Numeric value of a digit string. -/
def digitsToNat (s : String) : Nat := s.data.foldl (fun a c => a * 10 + (c.toNat - 48)) 0

/-- `datetime.strptime(s, "%Y-%m-%d")`, returning `none` where Python raises
`ValueError`: exactly three dash-separated digit groups, the year of exactly
four digits, month and day of one or two digits, forming a valid calendar date
with year at least 1. -/
def parseDate (s : String) : Option DateT :=
  match pySplit s '-' with
  | [ys, ms, ds] =>
    if allDigits ys ∧ ys.length = 4 ∧ allDigits ms ∧ ms.length ≤ 2 ∧ allDigits ds ∧ ds.length ≤ 2 then
      let y := digitsToNat ys
      let m := digitsToNat ms
      let d := digitsToNat ds
      if 1 ≤ y ∧ 1 ≤ m ∧ m ≤ 12 ∧ 1 ≤ d ∧ d ≤ daysInMonth y m then some ⟨y, m, d⟩ else none
    else none
  | _ => none

/-- Date-window test of the per-filing loop (source lines 222-231): parse
`filing_date`; an unparsable date is skipped, and an entry is skipped when a
present bound is strictly violated. -/
def dateFilterPass (sd ed : Option DateT) (s : String) : Bool :=
  match parseDate s with
  | none => false
  | some f =>
    !(match sd with
      | some dv => dateLt f dv
      | none => false)
    && !(match ed with
      | some dv => dateLt dv f
      | none => false)

theorem specDateLe_eq_not_lt (a b : DateT) : specDateLe a b = !(dateLt b a) := by
  unfold specDateLe dateLt
  rw [← decide_not, decide_eq_decide]
  omega

/-- C7: the date range filter treats both bounds as inclusive: an entry whose
`filing_date` parses and lies within `[date_start, date_end]` passes (bounds
included), an unparsable `filing_date` is dropped silently, an absent bound
imposes no constraint, and with both bounds absent exactly the parsable
entries pass; instantiated on the spec's examples for the window
`[2024-01-01, 2024-12-31]` and the unparsable date `"N/A"`. -/
theorem C7_date_filter (sd ed : Option DateT) (s : String) :
    (dateFilterPass sd ed s = true ↔
      ∃ f, parseDate s = some f
        ∧ (∀ dv, sd = some dv → specDateLe dv f = true)
        ∧ (∀ dv, ed = some dv → specDateLe f dv = true))
  ∧ (parseDate s = none → dateFilterPass sd ed s = false)
  ∧ (dateFilterPass none none s = (parseDate s).isSome)
  ∧ dateFilterPass (some ⟨2024, 1, 1⟩) (some ⟨2024, 12, 31⟩) "2024-06-15" = true
  ∧ dateFilterPass (some ⟨2024, 1, 1⟩) (some ⟨2024, 12, 31⟩) "2024-01-01" = true
  ∧ dateFilterPass (some ⟨2024, 1, 1⟩) (some ⟨2024, 12, 31⟩) "2024-12-31" = true
  ∧ dateFilterPass (some ⟨2024, 1, 1⟩) (some ⟨2024, 12, 31⟩) "2023-12-31" = false
  ∧ dateFilterPass (some ⟨2024, 1, 1⟩) (some ⟨2024, 12, 31⟩) "2025-01-01" = false
  ∧ dateFilterPass (some ⟨2024, 1, 1⟩) (some ⟨2024, 12, 31⟩) "N/A" = false := by
  refine ⟨?_, ?_, ?_, by decide, by decide, by decide, by decide, by decide, by decide⟩
  · unfold dateFilterPass
    cases hp : parseDate s with
    | none => simp
    | some f =>
      constructor
      · intro h
        rw [Bool.and_eq_true] at h
        refine ⟨f, rfl, ?_, ?_⟩
        · intro dv hdv
          subst hdv
          have h1 : (!(dateLt f dv)) = true := h.1
          rw [specDateLe_eq_not_lt]
          exact h1
        · intro dv hdv
          subst hdv
          have h2 : (!(dateLt dv f)) = true := h.2
          rw [specDateLe_eq_not_lt]
          exact h2
      · rintro ⟨f', hf', h1, h2⟩
        cases hf'
        rw [Bool.and_eq_true]
        constructor
        · cases sd with
          | none => rfl
          | some dv =>
            have h1b := h1 dv rfl
            rw [specDateLe_eq_not_lt] at h1b
            exact h1b
        · cases ed with
          | none => rfl
          | some dv =>
            have h2b := h2 dv rfl
            rw [specDateLe_eq_not_lt] at h2b
            exact h2b
  · intro hp
    unfold dateFilterPass
    rw [hp]
  · unfold dateFilterPass
    cases hp : parseDate s <;> rfl

/-- Witness for C7 on a concrete in-window date. -/
theorem C7_date_filter_w :
    dateFilterPass (some ⟨2024, 1, 1⟩) (some ⟨2024, 12, 31⟩) "2024-06-15" = true :=
  (C7_date_filter (some ⟨2024, 1, 1⟩) (some ⟨2024, 12, 31⟩) "2024-06-15").2.2.2.1

/-- The per-company `link_tracker`, a `defaultdict(list)` in insertion order:
an association list from group key to the ordered URL list, keys in
first-seen order. -/
abbrev Tracker := List (String × List String)

/-- `link_tracker[key].append(url)`: append to the key's list, creating the
key at the end on first sight. -/
def trackerAdd : Tracker → String → String → Tracker
  | [], k, u => [(k, [u])]
  | (k0, us) :: rest, k, u =>
    if k0 = k then (k0, us ++ [u]) :: rest else (k0, us) :: trackerAdd rest k u

/-- Ordered URL list currently held by a key (empty when the key is absent). -/
def trackerUrls : Tracker → String → List String
  | [], _ => []
  | (k0, us) :: rest, k => if k0 = k then us else trackerUrls rest k

/-- `[x.strip() for x in items_str.split(",") if x.strip()]` from the source. -/
def splitStrip (items : String) : List String :=
  ((pySplit items ',').map pyStrip).filter (fun x => x ≠ "")

/-- Sub-item routing of one entry's link (source lines 244-247): for each
requested item code, in request order, append the link under `"8-K(<code>)"`
when that code occurs among the entry's parsed item codes. -/
def routeItems (tr : Tracker) (filt : List String) (splitted : List String) (link : String) : Tracker :=
  filt.foldl
    (fun t it => if splitted.contains it then trackerAdd t ("8-K(" ++ it ++ ")") link else t) tr

theorem trackerUrls_add_self : ∀ (tr : Tracker) (k u : String),
    trackerUrls (trackerAdd tr k u) k = trackerUrls tr k ++ [u] := by
  intro tr
  induction tr with
  | nil => intro k u; simp [trackerAdd, trackerUrls]
  | cons hd rest ih =>
    intro k u
    obtain ⟨k0, us⟩ := hd
    by_cases h : k0 = k
    · subst h
      simp [trackerAdd, trackerUrls]
    · simp [trackerAdd, trackerUrls, h, ih]

theorem trackerUrls_add_other : ∀ (tr : Tracker) (k u key : String), k ≠ key →
    trackerUrls (trackerAdd tr k u) key = trackerUrls tr key := by
  intro tr
  induction tr with
  | nil => intro k u key h; simp [trackerAdd, trackerUrls, h]
  | cons hd rest ih =>
    intro k u key h
    obtain ⟨k0, us⟩ := hd
    by_cases h0 : k0 = k
    · subst h0
      simp [trackerAdd, trackerUrls, h]
    · simp [trackerAdd, trackerUrls, h0, ih _ _ _ h]

theorem trackerUrls_add_mem (tr : Tracker) (k u key x : String)
    (hx : x ∈ trackerUrls tr key) : x ∈ trackerUrls (trackerAdd tr k u) key := by
  by_cases h : k = key
  · subst h
    rw [trackerUrls_add_self]
    exact List.mem_append_left _ hx
  · rw [trackerUrls_add_other _ _ _ _ h]
    exact hx

theorem foldl_if_filter {α β : Type} (p : α → Bool) (g : β → α → β) :
    ∀ (l : List α) (b : β),
      l.foldl (fun t x => if p x then g t x else t) b = (l.filter p).foldl g b := by
  intro l
  induction l with
  | nil => intro b; rfl
  | cons x xs ih =>
    intro b
    cases h : p x <;> simp [List.filter_cons, h, ih]

theorem key8_ne (it : String) : ("8-K(" ++ it ++ ")" : String) ≠ "8-K" := by
  intro hc
  have hlen : ("8-K(" ++ it ++ ")").length = ("8-K" : String).length := by rw [hc]
  rw [String.length_append, String.length_append] at hlen
  have h1 : ("8-K(" : String).length = 4 := rfl
  have h2 : (")" : String).length = 1 := rfl
  have h3 : ("8-K" : String).length = 3 := rfl
  omega

theorem routeItems_preserve (splitted : List String) (link : String) :
    ∀ (filt : List String) (tr : Tracker) (key x : String), x ∈ trackerUrls tr key →
      x ∈ trackerUrls (routeItems tr filt splitted link) key := by
  intro filt
  unfold routeItems
  induction filt with
  | nil => intro tr key x hx; exact hx
  | cons it rest ih =>
    intro tr key x hx
    simp only [List.foldl_cons]
    cases hs : splitted.contains it
    · rw [if_neg (by simp [hs])]
      exact ih _ _ _ hx
    · rw [if_pos (by simp [hs])]
      exact ih _ _ _ (trackerUrls_add_mem _ _ _ _ _ hx)

theorem routeItems_bare (splitted : List String) (link : String) :
    ∀ (filt : List String) (tr : Tracker),
      trackerUrls (routeItems tr filt splitted link) "8-K" = trackerUrls tr "8-K" := by
  intro filt
  unfold routeItems
  induction filt with
  | nil => intro tr; rfl
  | cons it rest ih =>
    intro tr
    simp only [List.foldl_cons]
    cases hs : splitted.contains it
    · rw [if_neg (by simp [hs])]
      exact ih _
    · rw [if_pos (by simp [hs])]
      rw [ih _, trackerUrls_add_other _ _ _ _ (key8_ne it)]

theorem routeItems_mem : ∀ (filt : List String) (tr : Tracker) (splitted : List String)
    (link it0 : String), it0 ∈ filt → splitted.contains it0 = true →
    link ∈ trackerUrls (routeItems tr filt splitted link) ("8-K(" ++ it0 ++ ")") := by
  intro filt
  induction filt with
  | nil =>
    intro tr splitted link it0 h0 _
    exact absurd h0 (List.not_mem_nil _)
  | cons it rest ih =>
    intro tr splitted link it0 h0 hc
    unfold routeItems
    simp only [List.foldl_cons]
    rcases List.mem_cons.mp h0 with heq | hmem
    · subst heq
      rw [if_pos hc]
      have hadd : link ∈ trackerUrls (trackerAdd tr ("8-K(" ++ it0 ++ ")") link)
          ("8-K(" ++ it0 ++ ")") := by
        rw [trackerUrls_add_self]
        exact List.mem_append_right _ (List.mem_singleton.mpr rfl)
      exact routeItems_preserve splitted link rest _ _ _ hadd
    · cases hs : splitted.contains it
      · rw [if_neg (by simp [hs])]
        exact ih tr splitted link it0 hmem hc
      · rw [if_pos (by simp [hs])]
        exact ih _ splitted link it0 hmem hc

/-- C5: when the sub-item filter is active, an entry's `item_codes` string is
split on commas and whitespace-trimmed, and the entry's link is routed exactly
to the keys `"8-K(<code>)"` of the requested codes present in the parsed set,
in request order: routing equals a fold over the matched requested codes, the
bare `"8-K"` key never receives such an entry, an entry matching no requested
code contributes nothing, an entry matching several requested codes is routed
into each matched group, and `item_codes = "5.02,5.07"` with requested set
`{"5.07"}` routes only to `"8-K(5.07)"`. -/
theorem C5_subitem_routing (tr : Tracker) (filt : List String) (items link : String) :
    routeItems tr filt (splitStrip items) link
      = (filt.filter (fun it => (splitStrip items).contains it)).foldl
          (fun t it => trackerAdd t ("8-K(" ++ it ++ ")") link) tr
  ∧ trackerUrls (routeItems tr filt (splitStrip items) link) "8-K" = trackerUrls tr "8-K"
  ∧ ((∀ it ∈ filt, (splitStrip items).contains it = false) →
        routeItems tr filt (splitStrip items) link = tr)
  ∧ (∀ it ∈ filt, (splitStrip items).contains it = true →
        link ∈ trackerUrls (routeItems tr filt (splitStrip items) link) ("8-K(" ++ it ++ ")"))
  ∧ (splitStrip "5.02,5.07" = ["5.02", "5.07"]
      ∧ routeItems [] ["5.07"] (splitStrip "5.02,5.07") link = [("8-K(5.07)", [link])]
      ∧ trackerUrls (routeItems [] ["5.07"] (splitStrip "5.02,5.07") link) "8-K" = []) := by
  refine ⟨?_, routeItems_bare _ _ _ _, ?_, ?_, by rfl, by rfl, by rfl⟩
  · exact foldl_if_filter _ _ filt tr
  · intro hall
    have h1 : routeItems tr filt (splitStrip items) link
        = (filt.filter (fun it => (splitStrip items).contains it)).foldl
            (fun t it => trackerAdd t ("8-K(" ++ it ++ ")") link) tr :=
      foldl_if_filter _ _ filt tr
    have hfil : filt.filter (fun it => (splitStrip items).contains it) = [] := by
      rw [List.filter_eq_nil_iff]
      intro a ha
      simpa using hall a ha
    rw [h1, hfil]
    rfl
  · intro it hit hc
    exact routeItems_mem filt tr _ link it hit hc

/-- Witness for C5 at the spec's example entry. -/
theorem C5_subitem_routing_w :
    ("5.07" ∈ (["5.07"] : List String) ∧ (splitStrip "5.02,5.07").contains "5.07" = true)
  ∧ "u" ∈ trackerUrls (routeItems [] ["5.07"] (splitStrip "5.02,5.07") "u")
      ("8-K(" ++ "5.07" ++ ")") :=
  ⟨⟨by decide, by decide⟩,
   (C5_subitem_routing [] ["5.07"] "5.02,5.07" "u").2.2.2.1 "5.07" (by decide) (by decide)⟩

/-- Python `enumerate(l, start = n)`. -/
def pyEnumerate : Nat → List String → List (Nat × String)
  | _, [] => []
  | n, x :: xs => (n, x) :: pyEnumerate (n + 1) xs

/-- Field layout of one link group (source lines 253-261): a group of size 1
emits one field named by its key; a larger group emits the key for the first
URL and `key_2 … key_k` for the rest, in discovery order.  (The `[]` case is
unreachable from `groupPairs`, whose groups are always non-empty.) -/
def expandGroup (k : String) (us : List String) : List (String × String) :=
  match us with
  | [] => []
  | u :: rest => (k, u) :: (pyEnumerate 2 rest).map (fun p => (k ++ "_" ++ natRepr p.1, p.2))

/-- Python dict assignment `result[k] = v`: replace in place, else append. -/
def dictInsert : List (String × String) → String → String → List (String × String)
  | [], k, v => [(k, v)]
  | (k0, v0) :: rest, k, v =>
    if k0 = k then (k0, v) :: rest else (k0, v0) :: dictInsert rest k v

/-- Sequential dict assignment of a list of fields. -/
def insertFields (fs : List (String × String)) (new : List (String × String)) :
    List (String × String) :=
  new.foldl (fun a p => dictInsert a p.1 p.2) fs

/-- The dynamic link fields of a result record: each tracker group flattened
in first-seen key order, written into a dict. -/
def flattenGroups (tr : Tracker) : List (String × String) :=
  tr.foldl (fun fs g => insertFields fs (expandGroup g.1 g.2)) []

/-- The same flattening as plain concatenation (the spec's reading, equal to
`flattenGroups` when no two emitted field names collide). -/
def flattenRaw : Tracker → List (String × String)
  | [] => []
  | g :: tr => expandGroup g.1 g.2 ++ flattenRaw tr

/-- Fold of (GroupKey, URL) pairs into the tracker, in encounter order. -/
def groupPairs (ps : List (String × String)) : Tracker :=
  ps.foldl (fun tr p => trackerAdd tr p.1 p.2) []

/-- Availability flag of the aggregation: `"Yes"` iff the tracker is non-empty. -/
def aggAvailability (ps : List (String × String)) : String :=
  if groupPairs ps = [] then "No" else "Yes"

theorem dictInsert_fresh : ∀ (fs : List (String × String)) (k v : String),
    k ∉ fs.map Prod.fst → dictInsert fs k v = fs ++ [(k, v)] := by
  intro fs
  induction fs with
  | nil => intro k v _; rfl
  | cons hd rest ih =>
    intro k v hk
    obtain ⟨k0, v0⟩ := hd
    have hne : k0 ≠ k := by
      intro hc
      exact hk (by simp [hc])
    simp only [dictInsert, if_neg hne, List.cons_append, List.cons.injEq, true_and]
    exact ih k v (fun hc => hk (by simp [hc]))

theorem insertFields_fresh : ∀ (new fs : List (String × String)),
    (new.map Prod.fst).Nodup → (∀ n ∈ new.map Prod.fst, n ∉ fs.map Prod.fst) →
    insertFields fs new = fs ++ new := by
  intro new
  induction new with
  | nil => intro fs _ _; simp [insertFields]
  | cons p ps ih =>
    intro fs hnd hdisj
    obtain ⟨k, v⟩ := p
    have hstep : dictInsert fs k v = fs ++ [(k, v)] :=
      dictInsert_fresh fs k v (hdisj k (by simp))
    have hnd' : (ps.map Prod.fst).Nodup := (List.nodup_cons.mp (by simpa using hnd)).2
    have hknotps : k ∉ ps.map Prod.fst := (List.nodup_cons.mp (by simpa using hnd)).1
    have hdisj' : ∀ n ∈ ps.map Prod.fst, n ∉ (fs ++ [(k, v)]).map Prod.fst := by
      intro n hn
      rw [List.map_append]
      intro hc
      rcases List.mem_append.mp hc with hc1 | hc2
      · exact hdisj n (by simp [hn]) hc1
      · simp at hc2
        subst hc2
        exact hknotps hn
    show insertFields (dictInsert fs k v) ps = fs ++ (k, v) :: ps
    rw [hstep, ih (fs ++ [(k, v)]) hnd' hdisj']
    simp

theorem flattenGroups_eq : ∀ (tr : Tracker) (fs : List (String × String)),
    ((fs ++ flattenRaw tr).map Prod.fst).Nodup →
    tr.foldl (fun a g => insertFields a (expandGroup g.1 g.2)) fs = fs ++ flattenRaw tr := by
  intro tr
  induction tr with
  | nil => intro fs _; simp [flattenRaw]
  | cons g tr ih =>
    intro fs hnd
    have hraw : flattenRaw (g :: tr) = expandGroup g.1 g.2 ++ flattenRaw tr := rfl
    rw [hraw] at hnd
    have hnd2 : ((fs.map Prod.fst ++ (expandGroup g.1 g.2).map Prod.fst)
        ++ (flattenRaw tr).map Prod.fst).Nodup := by
      simpa [List.map_append, List.append_assoc] using hnd
    have hfs_eg : (fs.map Prod.fst ++ (expandGroup g.1 g.2).map Prod.fst).Nodup :=
      (List.nodup_append.mp hnd2).1
    have heg_nd : ((expandGroup g.1 g.2).map Prod.fst).Nodup := (List.nodup_append.mp hfs_eg).2.1
    have hdisj : ∀ n ∈ (expandGroup g.1 g.2).map Prod.fst, n ∉ fs.map Prod.fst := by
      intro n hn hc
      exact (List.nodup_append.mp hfs_eg).2.2 hc hn
    have hstep : insertFields fs (expandGroup g.1 g.2) = fs ++ expandGroup g.1 g.2 :=
      insertFields_fresh _ fs heg_nd hdisj
    show List.foldl _ (insertFields fs (expandGroup g.1 g.2)) tr = _
    rw [hstep, ih (fs ++ expandGroup g.1 g.2) (by simpa [List.append_assoc] using hnd)]
    simp [hraw, List.append_assoc]

theorem trackerAdd_snd_ne : ∀ (tr : Tracker) (k u : String),
    (∀ g ∈ tr, g.2 ≠ []) → ∀ g ∈ trackerAdd tr k u, g.2 ≠ [] := by
  intro tr
  induction tr with
  | nil =>
    intro k u _ g hg
    simp [trackerAdd] at hg
    subst hg
    simp
  | cons hd rest ih =>
    intro k u hall g hg
    obtain ⟨k0, us⟩ := hd
    by_cases h : k0 = k
    · simp only [trackerAdd, if_pos h] at hg
      rcases List.mem_cons.mp hg with hg1 | hg2
      · subst hg1
        simp
      · exact hall g (List.mem_cons_of_mem _ hg2)
    · simp only [trackerAdd, if_neg h] at hg
      rcases List.mem_cons.mp hg with hg1 | hg2
      · subst hg1
        exact hall (k0, us) (by simp)
      · exact ih k u (fun g2 hg2b => hall g2 (List.mem_cons_of_mem _ hg2b)) g hg2

theorem groupPairs_snd_ne (ps : List (String × String)) :
    ∀ g ∈ groupPairs ps, g.2 ≠ [] := by
  have hgen : ∀ (l : List (String × String)) (tr : Tracker), (∀ g ∈ tr, g.2 ≠ []) →
      ∀ g ∈ l.foldl (fun a p => trackerAdd a p.1 p.2) tr, g.2 ≠ [] := by
    intro l
    induction l with
    | nil => intro tr h; exact h
    | cons p l2 ih =>
      intro tr h
      exact ih _ (trackerAdd_snd_ne tr p.1 p.2 h)
  exact hgen ps [] (by simp)

theorem filter_key_none : ∀ (l : List (String × String)) (k : String),
    k ∉ l.map Prod.fst → l.filter (fun p => p.1 == k) = [] := by
  intro l
  induction l with
  | nil => intro k _; rfl
  | cons hd rest ih =>
    intro k hk
    obtain ⟨k0, v0⟩ := hd
    have hne : (k0 == k) = false := by
      simp only [beq_eq_false_iff_ne, ne_eq]
      intro hc
      exact hk (by simp [hc])
    simp only [List.filter_cons, hne]
    exact ih k (fun hc => hk (by simp [hc]))

theorem filter_key_singleton : ∀ (l : List (String × String)) (k v : String),
    (l.map Prod.fst).Nodup → (k, v) ∈ l → l.filter (fun p => p.1 == k) = [(k, v)] := by
  intro l
  induction l with
  | nil =>
    intro k v _ hm
    exact absurd hm (List.not_mem_nil _)
  | cons hd rest ih =>
    intro k v hnd hm
    obtain ⟨k0, v0⟩ := hd
    have hnd1 : (k0 :: rest.map Prod.fst).Nodup := by simpa using hnd
    have hnd2 : k0 ∉ rest.map Prod.fst ∧ (rest.map Prod.fst).Nodup := by
      exact ⟨(List.nodup_cons.mp hnd1).1, (List.nodup_cons.mp hnd1).2⟩
    rcases List.mem_cons.mp hm with hm1 | hm2
    · have hk0 : k0 = k := by
        have := congrArg Prod.fst hm1.symm
        simpa using this
      have hv0 : v0 = v := by
        have := congrArg Prod.snd hm1.symm
        simpa using this
      subst hk0
      subst hv0
      simp only [List.filter_cons, beq_self_eq_true, if_true]
      rw [filter_key_none rest k0 hnd2.1]
    · have hkrest : k ∈ rest.map Prod.fst := List.mem_map.mpr ⟨(k, v), hm2, rfl⟩
      have hne : (k0 == k) = false := by
        simp only [beq_eq_false_iff_ne, ne_eq]
        intro hc
        subst hc
        exact hnd2.1 hkrest
      simp only [List.filter_cons, hne]
      exact ih k v hnd2.2 hm2

theorem pyEnumerate_mem : ∀ (l : List String) (n j : Nat) (h : j < l.length),
    (n + j, l.get ⟨j, h⟩) ∈ pyEnumerate n l := by
  intro l
  induction l with
  | nil => intro n j h; simp at h
  | cons x xs ih =>
    intro n j h
    cases j with
    | zero =>
      show (n + 0, x) ∈ (n, x) :: pyEnumerate (n + 1) xs
      simp
    | succ j =>
      have hlt : j < xs.length := by simpa using h
      have hmem := ih (n + 1) j hlt
      have hrw : n + (j + 1) = n + 1 + j := by omega
      show (n + (j + 1), xs.get ⟨j, hlt⟩) ∈ (n, x) :: pyEnumerate (n + 1) xs
      rw [hrw]
      exact List.mem_cons_of_mem _ hmem

theorem mem_flattenRaw : ∀ (tr : Tracker) (g : String × List String), g ∈ tr →
    ∀ p ∈ expandGroup g.1 g.2, p ∈ flattenRaw tr := by
  intro tr
  induction tr with
  | nil =>
    intro g hg
    exact absurd hg (List.not_mem_nil _)
  | cons g0 rest ih =>
    intro g hg p hp
    show p ∈ expandGroup g0.1 g0.2 ++ flattenRaw rest
    rcases List.mem_cons.mp hg with hg1 | hg2
    · subst hg1
      exact List.mem_append_left _ hp
    · exact List.mem_append_right _ (ih g hg2 p hp)

/-- C6: aggregated record layout, under the hypothesis that the emitted field
names are pairwise distinct (true of every key set the pipeline produces): the
fields equal the groups flattened in first-seen GroupKey order; every group is
non-empty, its key names exactly one field holding the group's first URL, and
for a group of size k the fields `key_2 … key_k` each name exactly one field
holding the remaining URLs in discovery order; the availability flag is
`"Yes"` iff some non-empty link group exists. -/
theorem C6_aggregation (ps : List (String × String))
    (hnd : ((flattenRaw (groupPairs ps)).map Prod.fst).Nodup) :
    flattenGroups (groupPairs ps) = flattenRaw (groupPairs ps)
  ∧ (∀ g ∈ groupPairs ps, ∃ u rest, g.2 = u :: rest
      ∧ (flattenGroups (groupPairs ps)).filter (fun p => p.1 == g.1) = [(g.1, u)]
      ∧ ∀ (j : Nat) (hj : j < rest.length),
          (flattenGroups (groupPairs ps)).filter
              (fun p => p.1 == g.1 ++ "_" ++ natRepr (j + 2))
            = [(g.1 ++ "_" ++ natRepr (j + 2), rest.get ⟨j, hj⟩)])
  ∧ (aggAvailability ps = "Yes" ↔ ∃ g ∈ groupPairs ps, g.2 ≠ []) := by
  have hflat : flattenGroups (groupPairs ps) = flattenRaw (groupPairs ps) := by
    unfold flattenGroups
    have := flattenGroups_eq (groupPairs ps) [] (by simpa using hnd)
    simpa using this
  refine ⟨hflat, ?_, ?_⟩
  · intro g hg
    obtain ⟨k, us⟩ := g
    have hne : us ≠ [] := groupPairs_snd_ne ps (k, us) hg
    cases us with
    | nil => exact absurd rfl hne
    | cons u rest =>
      refine ⟨u, rest, rfl, ?_, ?_⟩
      · rw [hflat]
        apply filter_key_singleton _ _ _ hnd
        apply mem_flattenRaw _ _ hg
        show (k, u) ∈ expandGroup k (u :: rest)
        simp [expandGroup]
      · intro j hj
        rw [hflat]
        apply filter_key_singleton _ _ _ hnd
        apply mem_flattenRaw _ _ hg
        show _ ∈ expandGroup k (u :: rest)
        unfold expandGroup
        apply List.mem_cons_of_mem
        have hmem := pyEnumerate_mem rest 2 j hj
        have hrw : 2 + j = j + 2 := by omega
        rw [hrw] at hmem
        exact List.mem_map_of_mem (fun p => (k ++ "_" ++ natRepr p.1, p.2)) hmem
  · unfold aggAvailability
    cases hgp : groupPairs ps with
    | nil =>
      constructor
      · intro hc
        exact absurd hc (by decide)
      · rintro ⟨g, hg, _⟩
        exact absurd hg (List.not_mem_nil _)
    | cons g rest =>
      constructor
      · intro _
        refine ⟨g, by simp, ?_⟩
        have := groupPairs_snd_ne ps g (by rw [hgp]; simp)
        exact this
      · intro _
        simp

/-- Witness for C6 on a concrete pair sequence with a repeated GroupKey. -/
theorem C6_aggregation_w :
    ((flattenRaw (groupPairs [("A", "u1"), ("A", "u2"), ("B", "u3")])).map Prod.fst).Nodup
  ∧ flattenGroups (groupPairs [("A", "u1"), ("A", "u2"), ("B", "u3")])
      = flattenRaw (groupPairs [("A", "u1"), ("A", "u2"), ("B", "u3")]) :=
  ⟨by decide, (C6_aggregation [("A", "u1"), ("A", "u2"), ("B", "u3")] (by decide)).1⟩

/-- C9: the aggregation is deterministic — in this pure embedding the
aggregation is a function of the ordered (GroupKey, URL) sequence alone, so
two runs over equal ordered input yield identical field names, field values
and availability flag. -/
theorem C9_agg_deterministic (ps qs : List (String × String)) (h : ps = qs) :
    flattenGroups (groupPairs ps) = flattenGroups (groupPairs qs)
  ∧ (flattenGroups (groupPairs ps)).map Prod.fst
      = (flattenGroups (groupPairs qs)).map Prod.fst
  ∧ aggAvailability ps = aggAvailability qs := by
  subst h
  exact ⟨rfl, rfl, rfl⟩

/-- Witness for C9 on a concrete pair sequence. -/
theorem C9_agg_deterministic_w :
    ([("8-K(5.07)", "a"), ("8-K(5.07)", "b")] : List (String × String))
        = [("8-K(5.07)", "a"), ("8-K(5.07)", "b")]
  ∧ flattenGroups (groupPairs [("8-K(5.07)", "a"), ("8-K(5.07)", "b")])
      = flattenGroups (groupPairs [("8-K(5.07)", "a"), ("8-K(5.07)", "b")]) :=
  ⟨rfl, (C9_agg_deterministic _ _ rfl).1⟩

/-- The `FORM_BASE` table from the source: raw form code to base label. -/
def FORM_BASE : List (String × String) :=
  [("10-K", "10-K"), ("10-K/A", "10-K"),
   ("10-Q", "10-Q"), ("10-Q/A", "10-Q"),
   ("8-K", "8-K"), ("8-K/A", "8-K"),
   ("DEF 14A", "Proxy"), ("DEFA14A", "Proxy"),
   ("DFAN14A", "Proxy"), ("DEFN14A", "Proxy"),
   ("DEFR14A", "Proxy"), ("DEFM14A", "Proxy"),
   ("PRE 14A", "Proxy"), ("PRER14A", "Proxy"),
   ("PREC14A", "Proxy"),
   ("3", "Ownership"), ("3/A", "Ownership"),
   ("4", "Ownership"), ("4/A", "Ownership"),
   ("5", "Ownership"), ("5/A", "Ownership"),
   ("SC 13D", "Ownership"), ("SC 13D/A", "Ownership"),
   ("SC 13G", "Ownership"), ("SC 13G/A", "Ownership")]

/-- The `FILING_CATEGORIES` table from the source: category name to form codes. -/
def FILING_CATEGORIES : List (String × List String) :=
  [("Annual & Quarterly Reports", ["10-K", "10-K/A", "10-Q", "10-Q/A"]),
   ("Current Reports (8-K)", ["8-K", "8-K/A"]),
   ("Proxy Statements",
     ["DEF 14A", "DEFA14A", "DFAN14A", "DEFN14A", "DEFR14A", "DEFM14A",
      "PRE 14A", "PRER14A", "PREC14A"]),
   ("Ownership Forms",
     ["3", "3/A", "4", "4/A", "5", "5/A", "SC 13D", "SC 13D/A", "SC 13G", "SC 13G/A"])]

/-- `FORM_BASE.get(form_type, form_type)` (source line 239). -/
def formBaseGet (form : String) : String := (FORM_BASE.lookup form).getD form

/-- The consumed subset of `filings.recent`: four parallel arrays, each
defaulted to `[]` by `recent.get(..., [])` in the source. -/
structure Recent where
  form : List String
  filingDate : List String
  accessionNumber : List String
  items : List String
deriving DecidableEq

/-- The consumed shape of the metadata JSON; `filingsRecent = none` models a
response whose JSON lacks the `filings.recent` structure (or is falsy). -/
structure SecJson where
  filingsRecent : Option Recent
deriving DecidableEq

/-- The run's selection criteria, fixed before the batch loop. -/
structure Criteria where
  forms_we_want : List String
  item_filter : List String
  start_date_val : Option DateT
  end_date_val : Option DateT

/-- One input row: the association list of its (column, cell) entries; an
absent column behaves like `row.get` returning `None`. -/
abbrev Row := List (String × String)

/-- `row.get(col)` over the row's columns. -/
def rowGet (row : Row) (col : String) : Option String := row.lookup col

/-- One output record: the identity fields written at source lines 182-187,
the availability flag, and the dynamic link fields. -/
structure ResultRecord where
  issuerId : String
  cik : Option String
  companyName : String
  filingAvailable : String
  links : List (String × String)
deriving DecidableEq

/-- The record initialized for every row: availability `"No"`, no link fields. -/
def baseRecord (row : Row) : ResultRecord :=
  { issuerId := (rowGet row "Issuer id").getD "Unknown",
    cik := rowGet row "CIK",
    companyName := (rowGet row "Company Name").getD "Unknown",
    filingAvailable := "No",
    links := [] }

/-- Canonical document link (source lines 235-236): the identifier as an
unpadded decimal — where `int(cik_padded)` can raise `ValueError` — and the
accession reference with all dashes removed. -/
def buildLink (v : Int) (accno_str : String) : String :=
  "https://www.sec.gov/Archives/edgar/data/" ++ intRepr v ++ "/"
    ++ String.mk (accno_str.data.filter (fun c => c ≠ '-')) ++ "/index.html"

/-- Body of one per-filing iteration (source lines 218-249), on the values
read from the parallel arrays: filter by form and date, build the link, then
classify and route. -/
def processEntryCore (crit : Criteria)
    (cikPadded form_type filing_dt_str accno_str items_str : String) (tr : Tracker) :
    Except String Tracker :=
  if crit.forms_we_want.contains form_type = false then Except.ok tr
  else if dateFilterPass crit.start_date_val crit.end_date_val filing_dt_str = false then
    Except.ok tr
  else
    match pyParseInt cikPadded with
    | none => Except.error "ValueError"
    | some v =>
      if formBaseGet form_type = "8-K" ∧ crit.item_filter ≠ [] then
        Except.ok (routeItems tr crit.item_filter (splitStrip items_str)
          (buildLink v accno_str))
      else Except.ok (trackerAdd tr (formBaseGet form_type) (buildLink v accno_str))

/-- One iteration of the per-filing loop at index `i` (source lines 212-216):
read the four parallel arrays at `i` — only `items` tolerates a short array,
substituting `""` — then run the iteration body.  `Except.error` models an
uncaught Python exception. -/
def processEntry (crit : Criteria) (cikPadded : String) (recent : Recent) (i : Nat)
    (tr : Tracker) : Except String Tracker :=
  match recent.form[i]?, recent.filingDate[i]?, recent.accessionNumber[i]? with
  | some form_type, some filing_dt_str, some accno_str =>
    processEntryCore crit cikPadded form_type filing_dt_str accno_str
      ((recent.items[i]?).getD "") tr
  | _, _, _ => Except.error "IndexError"

/-- The per-filing loop over a list of indices, threading the tracker and
stopping at the first uncaught exception. -/
def processEntriesFrom (crit : Criteria) (cikPadded : String) (recent : Recent) :
    List Nat → Tracker → Except String Tracker
  | [], tr => Except.ok tr
  | i :: rest, tr =>
    match processEntry crit cikPadded recent i tr with
    | Except.error e => Except.error e
    | Except.ok tr2 => processEntriesFrom crit cikPadded recent rest tr2

/-- `for i in range(len(form_list))` over the filings (source line 212). -/
def processEntries (crit : Criteria) (cikPadded : String) (recent : Recent) :
    Except String Tracker :=
  processEntriesFrom crit cikPadded recent (List.range recent.form.length) []

/-- Handling of the fetched metadata for one row (source lines 198-263): a
failed fetch or a JSON lacking `filings.recent` emits the base record;
otherwise the filings are filtered, linked and aggregated, and the
availability flag is set iff the tracker is non-empty. -/
def processFetched (crit : Criteria) (cikPadded : String) (base : ResultRecord) :
    Option SecJson → Except String ResultRecord
  | none => Except.ok base
  | some sj =>
    match sj.filingsRecent with
    | none => Except.ok base
    | some recent =>
      match processEntries crit cikPadded recent with
      | Except.error e => Except.error e
      | Except.ok tracker =>
        if tracker = [] then Except.ok base
        else Except.ok { base with filingAvailable := "Yes", links := flattenGroups tracker }

/-- Handling of the row's identifier cell (source lines 189-198): a missing or
falsy (empty) identifier emits the base record; otherwise the identifier is
zero-padded and the metadata fetched. -/
def processCik (fetch : String → Option SecJson) (crit : Criteria) (base : ResultRecord) :
    Option String → Except String ResultRecord
  | none => Except.ok base
  | some raw =>
    if raw = "" then Except.ok base
    else processFetched crit (zero_pad_cik raw) base (fetch (zero_pad_cik raw))

/-- One company row of the batch loop (source lines 175-263). -/
def processRow (fetch : String → Option SecJson) (crit : Criteria) (row : Row) :
    Except String ResultRecord :=
  processCik fetch crit (baseRecord row) (rowGet row "CIK")

/-- The batch loop: one record per row, aborted by the first uncaught
exception (the original code has no surrounding handler, so nothing is
emitted for any row in that case). -/
def runBatch (fetch : String → Option SecJson) (crit : Criteria) :
    List Row → Except String (List ResultRecord)
  | [] => Except.ok []
  | row :: rest =>
    match processRow fetch crit row with
    | Except.error e => Except.error e
    | Except.ok r =>
      match runBatch fetch crit rest with
      | Except.error e => Except.error e
      | Except.ok rs => Except.ok (r :: rs)

instance {ε α : Type} [DecidableEq ε] [DecidableEq α] : DecidableEq (Except ε α) := fun a b =>
  match a, b with
  | Except.error x, Except.error y =>
    if h : x = y then Decidable.isTrue (by rw [h])
    else Decidable.isFalse (fun hc => h (Except.error.inj hc))
  | Except.ok x, Except.ok y =>
    if h : x = y then Decidable.isTrue (by rw [h])
    else Decidable.isFalse (fun hc => h (Except.ok.inj hc))
  | Except.error _, Except.ok _ => Decidable.isFalse (fun hc => Except.noConfusion hc)
  | Except.ok _, Except.error _ => Decidable.isFalse (fun hc => Except.noConfusion hc)

theorem processEntry_eq_core (crit : Criteria) (cik : String) (recent : Recent) (i : Nat)
    (tr : Tracker) (hf : i < recent.form.length) (hd : i < recent.filingDate.length)
    (ha : i < recent.accessionNumber.length) :
    processEntry crit cik recent i tr
      = processEntryCore crit cik (recent.form.get ⟨i, hf⟩) (recent.filingDate.get ⟨i, hd⟩)
          (recent.accessionNumber.get ⟨i, ha⟩) ((recent.items[i]?).getD "") tr := by
  unfold processEntry
  rw [List.getElem?_eq_getElem hf, List.getElem?_eq_getElem hd, List.getElem?_eq_getElem ha]
  rfl

theorem processEntry_bad (crit : Criteria) (cik : String) (recent : Recent) (i : Nat)
    (tr : Tracker) (hf : i < recent.form.length)
    (hbad : recent.filingDate.length ≤ i ∨ recent.accessionNumber.length ≤ i) :
    processEntry crit cik recent i tr = Except.error "IndexError" := by
  unfold processEntry
  obtain ⟨ft, hft⟩ : ∃ x, recent.form[i]? = some x := ⟨_, List.getElem?_eq_getElem hf⟩
  rw [hft]
  rcases hbad with hb | hb
  · rw [List.getElem?_eq_none hb]
  · by_cases hdlt : i < recent.filingDate.length
    · obtain ⟨dt, hdt⟩ : ∃ x, recent.filingDate[i]? = some x :=
        ⟨_, List.getElem?_eq_getElem hdlt⟩
      rw [hdt, List.getElem?_eq_none hb]
    · rw [List.getElem?_eq_none (by omega)]

theorem processEntryCore_ok (crit : Criteria) (cik f d a it : String) (tr : Tracker)
    (v : Int) (hcik : pyParseInt cik = some v) :
    ∃ tr2, processEntryCore crit cik f d a it tr = Except.ok tr2 := by
  unfold processEntryCore
  by_cases h1 : crit.forms_we_want.contains f = false
  · rw [if_pos h1]
    exact ⟨tr, rfl⟩
  · rw [if_neg h1]
    by_cases h2 : dateFilterPass crit.start_date_val crit.end_date_val d = false
    · rw [if_pos h2]
      exact ⟨tr, rfl⟩
    · rw [if_neg h2]
      split
      · next heq =>
        rw [heq] at hcik
        exact absurd hcik (by simp)
      · next v2 heq =>
        split
        · exact ⟨_, rfl⟩
        · exact ⟨_, rfl⟩

theorem processEntriesFrom_step (crit : Criteria) (cik : String) (recent : Recent)
    (i : Nat) (rest : List Nat) (tr tr2 : Tracker)
    (h : processEntry crit cik recent i tr = Except.ok tr2) :
    processEntriesFrom crit cik recent (i :: rest) tr
      = processEntriesFrom crit cik recent rest tr2 := by
  show (match processEntry crit cik recent i tr with
    | Except.error e => Except.error e
    | Except.ok tr3 => processEntriesFrom crit cik recent rest tr3)
    = processEntriesFrom crit cik recent rest tr2
  rw [h]

theorem processEntriesFrom_ok_all (crit : Criteria) (cik : String) (recent : Recent)
    (v : Int) (hcik : pyParseInt cik = some v) :
    ∀ (idxs : List Nat) (tr : Tracker),
      (∀ i ∈ idxs, i < recent.form.length ∧ i < recent.filingDate.length
          ∧ i < recent.accessionNumber.length) →
      ∃ tr2, processEntriesFrom crit cik recent idxs tr = Except.ok tr2 := by
  intro idxs
  induction idxs with
  | nil => intro tr _; exact ⟨tr, rfl⟩
  | cons i rest ih =>
    intro tr hall
    obtain ⟨hf, hd, ha⟩ := hall i (by simp)
    have heq := processEntry_eq_core crit cik recent i tr hf hd ha
    obtain ⟨tr2, h2⟩ := processEntryCore_ok crit cik _ _ _ _ tr v hcik
    have hstep := processEntriesFrom_step crit cik recent i rest tr tr2 (by rw [heq, h2])
    rw [hstep]
    exact ih tr2 (fun j hj => hall j (List.mem_cons_of_mem _ hj))

theorem processEntriesFrom_bad (crit : Criteria) (cik : String) (recent : Recent)
    (v : Int) (hcik : pyParseInt cik = some v) :
    ∀ (idxs : List Nat) (tr : Tracker),
      (∀ i ∈ idxs, i < recent.form.length) →
      (∃ i ∈ idxs, recent.filingDate.length ≤ i ∨ recent.accessionNumber.length ≤ i) →
      processEntriesFrom crit cik recent idxs tr = Except.error "IndexError" := by
  intro idxs
  induction idxs with
  | nil =>
    rintro tr _ ⟨i, hi, _⟩
    exact absurd hi (List.not_mem_nil _)
  | cons i rest ih =>
    rintro tr hflen ⟨j, hj, hbad⟩
    have hf := hflen i (by simp)
    by_cases hgood : i < recent.filingDate.length ∧ i < recent.accessionNumber.length
    · have heq := processEntry_eq_core crit cik recent i tr hf hgood.1 hgood.2
      obtain ⟨tr2, h2⟩ := processEntryCore_ok crit cik _ _ _ _ tr v hcik
      have hstep := processEntriesFrom_step crit cik recent i rest tr tr2 (by rw [heq, h2])
      rw [hstep]
      have hjrest : j ∈ rest := by
        rcases List.mem_cons.mp hj with hji | hjr
        · subst hji
          exact absurd hbad (by omega)
        · exact hjr
      exact ih tr2 (fun i2 hi2 => hflen i2 (List.mem_cons_of_mem _ hi2)) ⟨j, hjrest, hbad⟩
    · have hbadi : recent.filingDate.length ≤ i ∨ recent.accessionNumber.length ≤ i := by
        omega
      have hstep := processEntry_bad crit cik recent i tr hf hbadi
      unfold processEntriesFrom
      rw [hstep]

theorem itemsAt_pad (items : List String) (fLen i : Nat) (hiF : i < fLen) :
    (((items.take fLen ++ List.replicate (fLen - items.length) "")[i]?).getD "")
      = ((items[i]?).getD "") := by
  by_cases h : i < items.length
  · have hlt : i < (items.take fLen).length := by
      rw [List.length_take]
      omega
    rw [List.getElem?_append_left hlt, List.getElem?_take_of_lt hiF]
  · have hlen : (items.take fLen).length = items.length := by
      rw [List.length_take]
      omega
    have hge : (items.take fLen).length ≤ i := by omega
    rw [List.getElem?_append_right hge, hlen]
    have hidx : i - items.length < (List.replicate (fLen - items.length) "").length := by
      rw [List.length_replicate]
      omega
    rw [List.getElem?_eq_getElem hidx, List.getElem_replicate,
      List.getElem?_eq_none (show items.length ≤ i by omega)]
    rfl

theorem processEntry_items_pad (crit : Criteria) (cik : String) (recent : Recent)
    (i : Nat) (tr : Tracker) (hiF : i < recent.form.length) :
    processEntry crit cik
        { recent with items := recent.items.take recent.form.length
            ++ List.replicate (recent.form.length - recent.items.length) "" } i tr
      = processEntry crit cik recent i tr := by
  cases recent with
  | mk f d a it =>
    unfold processEntry
    dsimp only
    cases hf2 : f[i]? with
    | none => rfl
    | some ft =>
      cases hd2 : d[i]? with
      | none => rfl
      | some dt =>
        cases ha2 : a[i]? with
        | none => rfl
        | some ac =>
          rw [itemsAt_pad it f.length i hiF]

theorem processEntriesFrom_items_pad (crit : Criteria) (cik : String) (recent : Recent) :
    ∀ (idxs : List Nat) (tr : Tracker), (∀ i ∈ idxs, i < recent.form.length) →
      processEntriesFrom crit cik
          { recent with items := recent.items.take recent.form.length
              ++ List.replicate (recent.form.length - recent.items.length) "" } idxs tr
        = processEntriesFrom crit cik recent idxs tr := by
  intro idxs
  induction idxs with
  | nil => intro tr _; rfl
  | cons i rest ih =>
    intro tr hall
    unfold processEntriesFrom
    rw [processEntry_items_pad crit cik recent i tr (hall i (by simp))]
    cases hres : processEntry crit cik recent i tr with
    | error e => rfl
    | ok tr2 => exact ih tr2 (fun j hj => hall j (List.mem_cons_of_mem _ hj))

/-- C10: of the four parallel arrays consumed from `filings.recent`, only
`items` may be shorter than `form` — a missing `items` entry is read as `""`,
so padding `items` with empty strings up to the `form` length changes nothing
and a company whose `filingDate` and `accessionNumber` arrays cover the `form`
array processes without exception — while a `filingDate` or `accessionNumber`
array shorter than `form` raises an uncaught IndexError for that company, and
an uncaught per-row error aborts the whole batch (it is not contained to the
row). -/
theorem C10_parallel_arrays (crit : Criteria) (cik : String) (recent : Recent) (v : Int)
    (hcik : pyParseInt cik = some v) :
    (min recent.filingDate.length recent.accessionNumber.length < recent.form.length →
        processEntries crit cik recent = Except.error "IndexError")
  ∧ (recent.form.length ≤ recent.filingDate.length →
      recent.form.length ≤ recent.accessionNumber.length →
        ∃ tr, processEntries crit cik recent = Except.ok tr)
  ∧ processEntries crit cik
        { recent with items := recent.items.take recent.form.length
            ++ List.replicate (recent.form.length - recent.items.length) "" }
      = processEntries crit cik recent
  ∧ (∀ (fetch : String → Option SecJson) (row : Row) (rows : List Row) (e : String),
        processRow fetch crit row = Except.error e →
        runBatch fetch crit (row :: rows) = Except.error e) := by
  refine ⟨?_, ?_, ?_, ?_⟩
  · intro hmin
    unfold processEntries
    apply processEntriesFrom_bad crit cik recent v hcik
    · intro i hi
      exact List.mem_range.mp hi
    · exact ⟨min recent.filingDate.length recent.accessionNumber.length,
        List.mem_range.mpr hmin, by omega⟩
  · intro hd ha
    unfold processEntries
    apply processEntriesFrom_ok_all crit cik recent v hcik
    intro i hi
    have := List.mem_range.mp hi
    exact ⟨this, by omega, by omega⟩
  · unfold processEntries
    exact processEntriesFrom_items_pad crit cik recent _ []
      (fun i hi => List.mem_range.mp hi)
  · intro fetch row rows e herr
    unfold runBatch
    rw [herr]

/-- Witness for C10: a single-filing company whose `filingDate` and
`accessionNumber` arrays are empty raises IndexError. -/
theorem C10_parallel_arrays_w :
    pyParseInt "0000000007" = some 7
  ∧ min ([] : List String).length ([] : List String).length
      < (["10-K"] : List String).length
  ∧ processEntries ⟨["10-K", "10-K/A", "10-Q", "10-Q/A"], [], none, none⟩ "0000000007"
        ⟨["10-K"], [], [], []⟩ = Except.error "IndexError" :=
  ⟨by decide, by decide,
   (C10_parallel_arrays ⟨["10-K", "10-K/A", "10-Q", "10-Q/A"], [], none, none⟩
      "0000000007" ⟨["10-K"], [], [], []⟩ 7 (by decide)).1 (by decide)⟩

/-- C2 (amended): for every company row with a usable identifier whose fetch
returns a failure (`None`) or a JSON lacking `filings.recent`, the emitted row
is the base record — availability `"No"` (not the claimed `"Error"`), no
dynamic link fields — and the batch continues with the next row. -/
theorem C2_fetch_failure_amended (fetch : String → Option SecJson) (crit : Criteria)
    (row : Row) (raw : String) (h1 : rowGet row "CIK" = some raw) (h2 : raw ≠ "")
    (h3 : fetch (zero_pad_cik raw) = none ∨ fetch (zero_pad_cik raw) = some ⟨none⟩) :
    processRow fetch crit row = Except.ok (baseRecord row)
  ∧ (baseRecord row).filingAvailable = "No"
  ∧ (baseRecord row).links = []
  ∧ ∀ rows, runBatch fetch crit (row :: rows)
      = Except.map (fun rs => baseRecord row :: rs) (runBatch fetch crit rows) := by
  have hrow : processRow fetch crit row = Except.ok (baseRecord row) := by
    unfold processRow
    rw [h1]
    show (if raw = "" then Except.ok (baseRecord row)
        else processFetched crit (zero_pad_cik raw) (baseRecord row)
          (fetch (zero_pad_cik raw)))
      = Except.ok (baseRecord row)
    rw [if_neg h2]
    rcases h3 with hfe | hfe
    · rw [hfe]
      rfl
    · rw [hfe]
      rfl
  refine ⟨hrow, rfl, rfl, ?_⟩
  intro rows
  show (match processRow fetch crit row with
    | Except.error e => Except.error e
    | Except.ok r =>
      match runBatch fetch crit rows with
      | Except.error e => Except.error e
      | Except.ok rs => Except.ok (r :: rs))
    = Except.map (fun rs => baseRecord row :: rs) (runBatch fetch crit rows)
  rw [hrow]
  cases hrb : runBatch fetch crit rows with
  | error e => rfl
  | ok rs => rfl

/-- C2 counterexample: a row whose fetch fails emits availability `"No"`, not
the claimed `"Error"`. -/
theorem C2_cex :
    processRow (fun _ => none) ⟨["8-K", "8-K/A"], [], none, none⟩ [("CIK", "7")]
      = Except.ok ⟨"Unknown", some "7", "Unknown", "No", []⟩
  ∧ ("No" : String) ≠ "Error" :=
  ⟨by decide, by decide⟩

/-- Witness for C2 (amended) at a concrete row with a failing fetch. -/
theorem C2_fetch_failure_amended_w :
    (rowGet [("CIK", "7")] "CIK" = some "7" ∧ "7" ≠ ""
      ∧ ((fun _ => (none : Option SecJson)) (zero_pad_cik "7") = none
          ∨ (fun _ => (none : Option SecJson)) (zero_pad_cik "7") = some ⟨none⟩))
  ∧ processRow (fun _ => none) ⟨["8-K", "8-K/A"], [], none, none⟩ [("CIK", "7")]
      = Except.ok (baseRecord [("CIK", "7")]) :=
  ⟨⟨by decide, by decide, Or.inl rfl⟩,
   (C2_fetch_failure_amended (fun _ => none) ⟨["8-K", "8-K/A"], [], none, none⟩
      [("CIK", "7")] "7" (by decide) (by decide) (Or.inl rfl)).1⟩

/-- C4 (amended): the classifier lookup on a code absent from the table does
return the code itself verbatim (in particular for `"NT 10-K"`), but in the
end-to-end pipeline an entry whose form code is not in the selected category's
form list is skipped before classification and contributes nothing; since
every form code of every category list is in the classifier table, an entry
with an unknown form code such as `"NT 10-K"` never yields a GroupKey in an
aggregated record. -/
theorem C4_classifier_amended :
    formBaseGet "NT 10-K" = "NT 10-K"
  ∧ (∀ f : String, FORM_BASE.lookup f = none → formBaseGet f = f)
  ∧ (∀ cat ∈ FILING_CATEGORIES, ∀ f ∈ cat.2, (FORM_BASE.lookup f).isSome = true)
  ∧ (∀ (crit : Criteria) (cik : String) (recent : Recent) (i : Nat) (tr : Tracker)
        (form : String), recent.form[i]? = some form →
        crit.forms_we_want.contains form = false →
        i < recent.filingDate.length → i < recent.accessionNumber.length →
        processEntry crit cik recent i tr = Except.ok tr) := by
  refine ⟨by decide, ?_, by decide, ?_⟩
  · intro f hf
    unfold formBaseGet
    rw [hf]
    rfl
  · intro crit cik recent i tr form hform hcontains hd ha
    have hf : i < recent.form.length := by
      by_contra hc
      rw [List.getElem?_eq_none (by omega)] at hform
      exact absurd hform (by simp)
    have hft : recent.form.get ⟨i, hf⟩ = form := by
      have hge := List.getElem?_eq_getElem hf
      rw [hge] at hform
      exact Option.some.inj hform
    rw [processEntry_eq_core crit cik recent i tr hf hd ha, hft]
    unfold processEntryCore
    rw [if_pos hcontains]

/-- C4 counterexample: in the pipeline, a company whose only filing has form
code `"NT 10-K"` (absent from the classifier table) produces a record with no
link fields at all — no GroupKey `"NT 10-K"` appears. -/
theorem C4_cex :
    runBatch
        (fun c => if c = "0000000007"
          then some ⟨some ⟨["NT 10-K"], ["2024-06-15"], ["0001-23-456"], []⟩⟩ else none)
        ⟨["10-K", "10-K/A", "10-Q", "10-Q/A"], [], none, none⟩ [[("CIK", "7")]]
      = Except.ok [⟨"Unknown", some "7", "Unknown", "No", []⟩]
  ∧ (⟨"Unknown", some "7", "Unknown", "No", []⟩ : ResultRecord).links.lookup "NT 10-K"
      = none :=
  ⟨by decide, rfl⟩

/-- Witness for C4 (amended): the skip branch at a concrete `"NT 10-K"` entry. -/
theorem C4_classifier_amended_w :
    ((⟨["NT 10-K"], ["2024-06-15"], ["0001-23-456"], []⟩ : Recent).form[0]?
        = some "NT 10-K"
      ∧ (["10-K", "10-K/A", "10-Q", "10-Q/A"] : List String).contains "NT 10-K" = false)
  ∧ processEntry ⟨["10-K", "10-K/A", "10-Q", "10-Q/A"], [], none, none⟩ "0000000007"
        ⟨["NT 10-K"], ["2024-06-15"], ["0001-23-456"], []⟩ 0 []
      = Except.ok [] :=
  ⟨⟨by decide, by decide⟩,
   C4_classifier_amended.2.2.2 ⟨["10-K", "10-K/A", "10-Q", "10-Q/A"], [], none, none⟩
      "0000000007" ⟨["NT 10-K"], ["2024-06-15"], ["0001-23-456"], []⟩ 0 [] "NT 10-K"
      (by decide) (by decide) (by decide) (by decide)⟩

/-- C8 (amended): a batch input lacking the identifier column is NOT rejected
as a batch-fatal error — every row is processed as if its identifier value
were missing, emitting one terminal availability-`"No"` record per row, and
the batch runs to completion; a missing identifier value on a single row
likewise affects only that row. -/
theorem C8_missing_column_amended (fetch : String → Option SecJson) (crit : Criteria) :
    (∀ rows : List Row, (∀ row ∈ rows, rowGet row "CIK" = none) →
        runBatch fetch crit rows = Except.ok (rows.map baseRecord))
  ∧ (∀ (row : Row) (rows : List Row), rowGet row "CIK" = none →
        runBatch fetch crit (row :: rows)
          = Except.map (fun rs => baseRecord row :: rs) (runBatch fetch crit rows)) := by
  have hrowNone : ∀ row : Row, rowGet row "CIK" = none →
      processRow fetch crit row = Except.ok (baseRecord row) := by
    intro row h
    unfold processRow
    rw [h]
    rfl
  constructor
  · intro rows
    induction rows with
    | nil => intro _; rfl
    | cons row rest ih =>
      intro hall
      show (match processRow fetch crit row with
        | Except.error e => Except.error e
        | Except.ok r =>
          match runBatch fetch crit rest with
          | Except.error e => Except.error e
          | Except.ok rs => Except.ok (r :: rs))
        = Except.ok ((row :: rest).map baseRecord)
      rw [hrowNone row (hall row (by simp)),
        ih (fun r hr => hall r (List.mem_cons_of_mem _ hr))]
      rfl
  · intro row rows h
    show (match processRow fetch crit row with
      | Except.error e => Except.error e
      | Except.ok r =>
        match runBatch fetch crit rows with
        | Except.error e => Except.error e
        | Except.ok rs => Except.ok (r :: rs))
      = Except.map (fun rs => baseRecord row :: rs) (runBatch fetch crit rows)
    rw [hrowNone row h]
    cases hrb : runBatch fetch crit rows with
    | error e => rfl
    | ok rs => rfl

/-- C8 counterexample: a two-row batch whose rows lack the `CIK` column is not
rejected before processing — it emits one identifier-missing record per row
and completes normally. -/
theorem C8_cex :
    runBatch (fun _ => none) ⟨["10-K", "10-K/A", "10-Q", "10-Q/A"], [], none, none⟩
        [[("Company Name", "Alpha")], [("Company Name", "Beta")]]
      = Except.ok [⟨"Unknown", none, "Alpha", "No", []⟩, ⟨"Unknown", none, "Beta", "No", []⟩]
  := by decide

/-- Witness for C8 (amended) at a concrete two-row batch without a `CIK` column. -/
theorem C8_missing_column_amended_w :
    (rowGet [("Company Name", "Alpha")] "CIK" = none
      ∧ rowGet [("Company Name", "Beta")] "CIK" = none)
  ∧ runBatch (fun _ => none) ⟨["8-K", "8-K/A"], [], none, none⟩
        [[("Company Name", "Alpha")], [("Company Name", "Beta")]]
      = Except.ok
          (([[("Company Name", "Alpha")], [("Company Name", "Beta")]] : List Row).map
            baseRecord) :=
  ⟨⟨by decide, by decide⟩,
   (C8_missing_column_amended (fun _ => none) ⟨["8-K", "8-K/A"], [], none, none⟩).1
      [[("Company Name", "Alpha")], [("Company Name", "Beta")]] (by decide)⟩

/-- C1 (code bug): failures are NOT all contained at per-company granularity.
A row whose non-empty raw identifier does not parse as an integer is padded by
`zero_pad_cik`, and if its fetch succeeds with a filing that passes the
filters, the link builder's `int(cik_padded)` raises an uncaught `ValueError`
that aborts the whole batch: the two-row batch below yields zero output rows
instead of one row per input. -/
theorem C1_uncontained_valueerror :
    runBatch
        (fun c => if c = "0000000ABC"
          then some ⟨some ⟨["8-K"], ["2024-06-15"], ["0001-23-456"], []⟩⟩ else none)
        ⟨["8-K", "8-K/A"], [], none, none⟩ [[("CIK", "7")], [("CIK", "ABC")]]
      = Except.error "ValueError"
  ∧ pyParseInt "ABC" = none
  ∧ zero_pad_cik "ABC" = "0000000ABC"
  ∧ pyParseInt "0000000ABC" = none :=
  ⟨by decide, by decide, by decide, by decide⟩

end SecFormChecker
